import Mathlib

/-!
Verification development for the Copper Kings dynasty-league dashboard
(`league_dashboard.py`).  The pandas derivation pipeline is embedded as
pure functions over lists of rows: users, rosters, and weekly matchup
entries.  Machine floats only ever become NaN in this pipeline through
the single unguarded division `wins / games` (a `0/0`) and through
left-join misses, so float values that can be NaN are modelled as
`Option ℚ`, with `none` playing the role of NaN / null.
-/

namespace Dashboard

/-- A user row, as produced by `get_users` (columns kept by the pipeline).
`team_name` is null when `metadata.team_name` is absent. -/
structure User where
  user_id : ℕ
  display_name : String
  team_name : Option String
  avatar : Option String
deriving DecidableEq

/-- A roster row, as produced by `get_rosters` (columns used downstream;
the player-id lists are dropped by `format_standings` and are omitted). -/
structure Roster where
  roster_id : ℕ
  owner_id : ℕ
  wins : ℕ
  ties : ℕ
  losses : ℕ
  points_for : ℚ
  points_against : ℚ
deriving DecidableEq

/-- A matchup entry: one roster's line for one week, the columns selected
by `get_matchups` (`roster_id`, `points`, `matchup_id`, `week`). -/
structure MRow where
  roster_id : ℕ
  points : ℚ
  matchup_id : ℕ
  week : ℕ
deriving DecidableEq

/-- `games` column of `calculate_power_rankings` (line 122):
`rosters_copy['games'] = wins + ties + losses`. -/
def Roster.games (r : Roster) : ℕ := r.wins + r.ties + r.losses

/-- `win_percent` column of `calculate_power_rankings` (line 123):
`rosters_copy['win_percent'] = rosters_copy['wins'] / rosters_copy['games']`.
The division is unguarded float division; when `games = 0` the numerator
`wins` is forced to `0` as well (wins ≤ games), so the float result is
the NaN of `0/0`, modelled as `none`. -/
def win_percent (r : Roster) : Option ℚ :=
  if r.games = 0 then none else some ((r.wins : ℚ) / (r.games : ℚ))

/-- pandas left-join/left-merge row production: each left row is paired
with every matching right row, or kept once with null right-hand fields
when there is no match. -/
def left_join_rows {α β γ : Type} (l : List α) (lookup : α → List β)
    (miss : α → γ) (hit : α → β → γ) : List γ :=
  l.flatMap fun a =>
    match lookup a with
    | [] => [miss a]
    | bs => bs.map (hit a)

/-- De-duplication keeping first occurrences in order
(pandas `Series.unique`, line 131). -/
def uniqueList : List ℕ → List ℕ
  | [] => []
  | a :: l => a :: uniqueList (l.filter fun b => !(b == a))
termination_by l => l.length
decreasing_by
  simp only [List.length_cons]
  exact Nat.lt_succ_of_le (List.length_filter_le _ _)

/-- One row of the `opponents` frame of `calculate_power_rankings`
(lines 137-144): a matchup entry carrying the season win percentage of
the roster that scored it, merged in by a left merge on `roster_id`
(a merge miss leaves a null win percentage). -/
structure OppRow where
  opponent_id : ℕ
  matchup_id : ℕ
  opponent_points : ℚ
  week : ℕ
  win_percent : Option ℚ
deriving DecidableEq

/-- The `opponents` frame (lines 137-144). -/
def opponents_table (matchups : List MRow) (rosters : List Roster) : List OppRow :=
  left_join_rows matchups
    (fun o => rosters.filter fun r => r.roster_id == o.roster_id)
    (fun o => ⟨o.roster_id, o.matchup_id, o.points, o.week, none⟩)
    (fun o r => ⟨o.roster_id, o.matchup_id, o.points, o.week, win_percent r⟩)

/-- One row of `curr_matchups` after the opponent merge (lines 147-148). -/
structure PairRow where
  roster_id : ℕ
  points : ℚ
  matchup_id : ℕ
  week : ℕ
  opponent_id : ℕ
  opponent_points : ℚ
  opp_win_percent : Option ℚ
deriving DecidableEq

/-- `curr_matchups` for one roster: its own matchup rows merged with the
`opponents` frame on `(matchup_id, week)` and stripped of self-pairs
(lines 134, 147-148).  The code's merge is a left merge, but every row
matches at least its own entry in the `opponents` frame, so it coincides
with the inner merge written here. -/
def curr_matchups_joined (matchups : List MRow) (rosters : List Roster)
    (roster : ℕ) : List PairRow :=
  ((matchups.filter fun m => m.roster_id == roster).flatMap fun m =>
      ((opponents_table matchups rosters).filter fun o =>
          o.matchup_id == m.matchup_id && o.week == m.week).map fun o =>
        ⟨m.roster_id, m.points, m.matchup_id, m.week,
         o.opponent_id, o.opponent_points, o.win_percent⟩).filter
    fun p => !(p.roster_id == p.opponent_id)

/-- The `win` column (line 151): strict greater-than, a tie scores 0. -/
def PairRow.win (p : PairRow) : ℚ :=
  if p.opponent_points < p.points then 1 else 0

/-- The `rank_score` column (line 154): `win * win_percent`; a NaN win
percentage makes the product NaN (`0 * NaN = NaN` in float arithmetic). -/
def PairRow.rank_score (p : PairRow) : Option ℚ :=
  p.opp_win_percent.map fun w => p.win * w

/-- pandas `groupby(...).sum()` sums with `skipna` semantics: NaN entries
are ignored, and a group whose entries are all NaN sums to 0. -/
def nansum (l : List (Option ℚ)) : ℚ := (l.filterMap id).sum

/-- `calculate_power_rankings` (lines 107-168): one
`(roster_id, rank_score)` row per roster whose `curr_matchups` frame is
non-empty after the self-pair filter.  The `groupby(...).sum()` of an
empty frame produces no row at all, so a roster with no matchups is
absent from the output rather than scored 0. -/
def calculate_power_rankings (matchups : List MRow) (rosters : List Roster) :
    List (ℕ × ℚ) :=
  (uniqueList (rosters.map fun r => r.roster_id)).flatMap fun roster =>
    if (curr_matchups_joined matchups rosters roster).isEmpty then []
    else
      [(roster,
        nansum ((curr_matchups_joined matchups rosters roster).map
          PairRow.rank_score))]

/-- Modelled from the spec's words, for comparison with the code: season
win percentage of the roster with a given id, defined as 0 (not NaN) when
the denominator is 0, and 0 when no roster carries the id. -/
def win_percent_spec (rosters : List Roster) (rid : ℕ) : ℚ :=
  match rosters.find? (fun r => r.roster_id == rid) with
  | none => 0
  | some r => if r.games = 0 then 0 else (r.wins : ℚ) / (r.games : ℚ)

/-- Modelled from the spec's words, for comparison with the code: the
power score of claim C1 — the sum, over the roster's matchup rows paired
with every opponent entry sharing the row's `matchup_id` and `week`
(excluding the roster's own entries), of a strict-greater win indicator
times that opponent's season win percentage. -/
def power_score_spec (matchups : List MRow) (rosters : List Roster)
    (roster : ℕ) : ℚ :=
  ((matchups.filter fun m => m.roster_id == roster).flatMap fun m =>
    (matchups.filter fun o =>
        o.matchup_id == m.matchup_id && o.week == m.week
          && !(o.roster_id == roster)).map fun o =>
      (if o.points < m.points then (1 : ℚ) else 0)
        * win_percent_spec rosters o.roster_id).sum

/-- The win percentage an opponent row carries after the engine's left
merge: null when the opponent id matches no roster row, otherwise the
(possibly NaN) `win_percent` of the first matching roster. -/
def wp_nan (rosters : List Roster) (rid : ℕ) : Option ℚ :=
  match rosters.find? (fun r => r.roster_id == rid) with
  | none => none
  | some r => win_percent r

/-- A standings row before the final column selection: the result of
joining rosters to users on `owner_id = user_id` and left-merging the
power scores on `roster_id` (lines 183-194).  `rank_score = none` models
the NaN a merge miss leaves behind.  The `power_rank`/`rank` fields are
filled by the two sort-and-number passes. -/
structure JRow where
  roster_id : ℕ
  owner_id : ℕ
  wins : ℕ
  ties : ℕ
  losses : ℕ
  points_for : ℚ
  points_against : ℚ
  display_name : Option String
  team_name : Option String
  avatar : Option String
  rank_score : Option ℚ
  power_rank : ℕ := 0
  rank : ℕ := 0
deriving DecidableEq

/-- `rosters_copy.join(users_copy)` (lines 188-193): a left join keyed by
`owner_id = user_id`; a roster whose owner matches no user keeps null
user fields. -/
def join_users (rosters : List Roster) (users : List User) : List JRow :=
  left_join_rows rosters
    (fun r => users.filter fun u => u.user_id == r.owner_id)
    (fun r => ⟨r.roster_id, r.owner_id, r.wins, r.ties, r.losses,
               r.points_for, r.points_against, none, none, none, none, 0, 0⟩)
    (fun r u => ⟨r.roster_id, r.owner_id, r.wins, r.ties, r.losses,
                 r.points_for, r.points_against, some u.display_name,
                 u.team_name, u.avatar, none, 0, 0⟩)

/-- `standings.merge(power_ranks_copy, on='roster_id', how='left')`
(line 194): a merge miss leaves a NaN `rank_score`, not 0. -/
def merge_power (t : List JRow) (power_ranks : List (ℕ × ℚ)) : List JRow :=
  left_join_rows t
    (fun j => power_ranks.filter fun p => p.1 == j.roster_id)
    (fun j => { j with rank_score := none })
    (fun j p => { j with rank_score := some p.2 })

/-- The joined standings frame of `format_standings` before sorting
(lines 183-194). -/
def standings_table (users : List User) (rosters : List Roster)
    (power_ranks : List (ℕ × ℚ)) : List JRow :=
  merge_power (join_users rosters users) power_ranks

/-- The `record` column (line 197): `"{wins}-{losses}"`, or
`"{wins}-{ties}-{losses}"` when there are ties. -/
def record_string (wins ties losses : ℕ) : String :=
  if ties = 0 then s!"{wins}-{losses}" else s!"{wins}-{ties}-{losses}"

/-- Descending order on a possibly-NaN sort key, pandas
`sort_values(..., ascending=False)` with its default `na_position='last'`:
a NaN sorts after every value and ties with another NaN. -/
def descBefore (a b : Option ℚ) : Bool :=
  match a, b with
  | some x, some y => decide (y < x)
  | some _, none => true
  | none, some _ => false
  | none, none => false

/-- Key equality for the same ordering (both NaN counts as a tie). -/
def descTies (a b : Option ℚ) : Bool :=
  match a, b with
  | some x, some y => x == y
  | none, none => true
  | _, _ => false

/-- Row `x` sorts no later than row `y` under
`sort_values(['rank_score', 'points_for'], ascending=False)` (line 200). -/
def power_sort_before (x y : JRow) : Bool :=
  descBefore x.rank_score y.rank_score
    || (descTies x.rank_score y.rank_score && decide (y.points_for ≤ x.points_for))

/-- Row `x` sorts no later than row `y` under
`sort_values(['wins', 'points_for'], ascending=False)` (line 206). -/
def rank_sort_before (x y : JRow) : Bool :=
  decide (y.wins < x.wins)
    || (x.wins == y.wins && decide (y.points_for ≤ x.points_for))

/-- Stable insertion of a row into an already sorted list: the new row
goes before the first row it sorts no later than.  Because `before` holds
on full key ties, an inserted row lands before rows with equal keys that
came later in the original frame, reproducing the stability of the
pandas multi-key lexsort. -/
def insertRow {α : Type} (before : α → α → Bool) (a : α) : List α → List α
  | [] => [a]
  | b :: l => if before a b then a :: b :: l else b :: insertRow before a l

/-- Stable sort by the given `before` relation. -/
def sortRows {α : Type} (before : α → α → Bool) : List α → List α
  | [] => []
  | a :: l => insertRow before a (sortRows before l)

/-- Numbering a sorted frame `1..N` by position:
`standings['Power Rank'] = [i for i in range(1, shape[0] + 1)]` (line 203). -/
def assign_power_rank (t : List JRow) : List JRow :=
  (List.enumFrom 1 t).map fun p => { p.2 with power_rank := p.1 }

/-- `standings['Rank'] = [i for i in range(1, shape[0] + 1)]` (line 209). -/
def assign_rank (t : List JRow) : List JRow :=
  (List.enumFrom 1 t).map fun p => { p.2 with rank := p.1 }

/-- A row of the final standings table: columns `Rank`, `Power Rank`,
`Team`, `Owner`, `Points For`, `Points Against`, `Record` (line 224). -/
structure StandingRow where
  rank : ℕ
  power_rank : ℕ
  team : Option String
  owner : Option String
  points_for : ℚ
  points_against : ℚ
  record : String
deriving DecidableEq

/-- `format_standings` (lines 170-226): join, sort descending on
`(rank_score, points_for)` and number `Power Rank`, re-sort descending on
`(wins, points_for)` and number `Rank`, then select the display columns.
(The code computes the `record` column before the sorts; the value per
row is the same.) -/
def format_standings (users : List User) (rosters : List Roster)
    (power_ranks : List (ℕ × ℚ)) : List StandingRow :=
  let t := standings_table users rosters power_ranks
  let t := assign_power_rank (sortRows power_sort_before t)
  let t := assign_rank (sortRows rank_sort_before t)
  t.map fun j =>
    ⟨j.rank, j.power_rank, j.team_name, j.display_name,
     j.points_for, j.points_against, record_string j.wins j.ties j.losses⟩

/-- The strength labels of `get_strength_group`. -/
inductive Group where
  | Juggernaut
  | Mediocre
  | Trash
deriving DecidableEq

/-- `get_strength_group` (lines 228-254), the if/elif chain exactly as
written (its branch comments in the source are shuffled; the conditions
are what is embedded here). -/
def get_strength_group (points_for points_against avg_for avg_against : ℚ) :
    Group :=
  if avg_for < points_for ∧ avg_against < points_against then .Mediocre
  else if avg_for < points_for ∧ points_against ≤ avg_against then .Juggernaut
  else if points_for ≤ avg_for ∧ avg_against < points_against then .Trash
  else .Mediocre

/-- The avatar URL column (line 286): a Python f-string over a possibly
missing (NaN) avatar id; `f'...{nan}'` renders the literal text `nan`. -/
def avatar_url (a : Option String) : String :=
  "https://sleepercdn.com/avatars/thumbs/"
    ++ (match a with | some s => s | none => "nan")

/-- A row of the strength view: the standings row plus the `Group` label
and the avatar URL. -/
structure StrengthRow where
  rank : ℕ
  power_rank : ℕ
  team : Option String
  owner : Option String
  points_for : ℚ
  points_against : ℚ
  record : String
  group : Group
  avatar : String
deriving DecidableEq

/-- `format_strength` (lines 256-288): classify every standings row
against the league means of `Points For` / `Points Against`, then
left-merge the users' `display_name`/`avatar` columns on the `Owner`
display name.  (On an empty standings table pandas' means are NaN, while
the `ℚ` quotient below is 0; no row exists to classify in that case, so
the outputs agree.) -/
def format_strength (users : List User) (standings : List StandingRow) :
    List StrengthRow :=
  let avg_for := (standings.map fun s => s.points_for).sum / (standings.length : ℚ)
  let avg_against :=
    (standings.map fun s => s.points_against).sum / (standings.length : ℚ)
  left_join_rows standings
    (fun s => users.filter fun u => some u.display_name == s.owner)
    (fun s => ⟨s.rank, s.power_rank, s.team, s.owner, s.points_for,
               s.points_against, s.record,
               get_strength_group s.points_for s.points_against avg_for avg_against,
               avatar_url none⟩)
    (fun s u => ⟨s.rank, s.power_rank, s.team, s.owner, s.points_for,
                 s.points_against, s.record,
                 get_strength_group s.points_for s.points_against avg_for avg_against,
                 avatar_url u.avatar⟩)

/-- A row of the `box_scores` frame of `format_rank_race`: a matchup
entry paired with one opponent entry. -/
structure BRow where
  roster_id : ℕ
  points : ℚ
  matchup_id : ℕ
  week : ℕ
  opponent_id : ℕ
  opponent_points : ℚ
deriving DecidableEq

/-- `box_scores` (lines 382-392): inner self-merge of the matchups on
`(matchup_id, week)`, then drop self-pairs. -/
def box_scores (matchups : List MRow) : List BRow :=
  (matchups.flatMap fun m =>
    (matchups.filter fun o =>
        o.matchup_id == m.matchup_id && o.week == m.week).map fun o =>
      ⟨m.roster_id, m.points, m.matchup_id, m.week, o.roster_id, o.points⟩).filter
    fun b => !(b.roster_id == b.opponent_id)

/-- The running win count of `apply_cumulative_rank` (lines 347-364): the
number of strict-greater weekly wins among the roster's box-score rows
with week at most the given week. -/
def cumulative_wins (box : List BRow) (roster week : ℕ) : ℕ :=
  ((((box.filter fun b => decide (b.week ≤ week)).filter
      fun b => b.roster_id == roster).map
    fun b => if b.opponent_points < b.points then 1 else 0)).sum

/-- The running points total of `apply_cumulative_rank` (lines 347-365):
the sum of the roster's weekly points over weeks at most the given week. -/
def cumulative_points (box : List BRow) (roster week : ℕ) : ℚ :=
  (((box.filter fun b => decide (b.week ≤ week)).filter
      fun b => b.roster_id == roster).map fun b => b.points).sum

/-- A raw weekly matchup record as returned by the matchups API for one
week: the columns `get_matchups` keeps before tagging the week. -/
structure RawMatchup where
  roster_id : ℕ
  points : ℚ
  matchup_id : ℕ
deriving DecidableEq

/-- The fetch loop of `get_matchups` (lines 79-105), with explicit fuel
standing in for the Python `while True`: running out of fuel returns
`none`, so termination of the loop is the statement that 16 fuel always
suffices.  The loop queries the week, breaks when the result is empty or
the week exceeds 15, and otherwise appends the week-tagged rows and
increments the week. -/
def fetch_weeks (oracle : ℕ → List RawMatchup) :
    ℕ → ℕ → List MRow → Option (List MRow)
  | 0, _, _ => none
  | fuel + 1, week, acc =>
    let results := oracle week
    if results.length = 0 ∨ 15 < week then some acc
    else
      fetch_weeks oracle fuel (week + 1)
        (acc ++ results.map fun r => ⟨r.roster_id, r.points, r.matchup_id, week⟩)

/-- `get_matchups` (lines 71-105) against an abstract weekly oracle. -/
def get_matchups (oracle : ℕ → List RawMatchup) : Option (List MRow) :=
  fetch_weeks oracle 16 1 []

/-! ### General lemmas about the embedded pandas operations -/

theorem flatMap_eq_map_of {α β : Type} {l : List α} {f : α → List β} {g : α → β}
    (h : ∀ a ∈ l, f a = [g a]) : l.flatMap f = l.map g := by
  induction l with
  | nil => rfl
  | cons a l ih =>
    rw [List.flatMap_cons, List.map_cons, h a (List.mem_cons_self a l),
      ih fun b hb => h b (List.mem_cons_of_mem a hb)]
    rfl

theorem flatMap_congr {α β : Type} {l : List α} {f g : α → List β}
    (h : ∀ a ∈ l, f a = g a) : l.flatMap f = l.flatMap g := by
  induction l with
  | nil => rfl
  | cons a l ih =>
    rw [List.flatMap_cons, List.flatMap_cons, h a (List.mem_cons_self a l),
      ih fun b hb => h b (List.mem_cons_of_mem a hb)]

theorem sum_flatMap_rat {α : Type} (l : List α) (f : α → List ℚ) :
    (l.flatMap f).sum = (l.map fun a => (f a).sum).sum := by
  induction l with
  | nil => rfl
  | cons a l ih => rw [List.flatMap_cons, List.sum_append, List.map_cons,
      List.sum_cons, ih]

theorem nansum_eq_sum_getD (l : List (Option ℚ)) :
    nansum l = (l.map fun o => o.getD 0).sum := by
  induction l with
  | nil => rfl
  | cons o l ih =>
    cases o with
    | none => simpa [nansum, List.filterMap_cons] using ih
    | some w => simpa [nansum, List.filterMap_cons] using congrArg (w + ·) ih

theorem insertRow_perm {α : Type} (r : α → α → Bool) (a : α) (l : List α) :
    (insertRow r a l).Perm (a :: l) := by
  induction l with
  | nil => exact List.Perm.refl _
  | cons b l ih =>
    by_cases h : r a b = true
    · simp only [insertRow, h, if_true]
      exact List.Perm.refl _
    · simp only [insertRow, h, if_false, Bool.false_eq_true, if_neg, not_false_eq_true]
      exact (ih.cons b).trans (List.Perm.swap a b l)

theorem sortRows_perm {α : Type} (r : α → α → Bool) (l : List α) :
    (sortRows r l).Perm l := by
  induction l with
  | nil => exact List.Perm.refl _
  | cons a l ih => exact (insertRow_perm r a (sortRows r l)).trans (ih.cons a)

theorem length_sortRows {α : Type} (r : α → α → Bool) (l : List α) :
    (sortRows r l).length = l.length :=
  (sortRows_perm r l).length_eq

theorem nodup_key_filter_length_le {α β : Type} [BEq β] [LawfulBEq β] (f : α → β)
    {l : List α} (h : (l.map f).Nodup) (k : β) :
    (l.filter fun a => f a == k).length ≤ 1 := by
  induction l with
  | nil => simp
  | cons a l ih =>
    rw [List.map_cons, List.nodup_cons] at h
    by_cases hk : f a = k
    · have : (l.filter fun a => f a == k) = [] := by
        rw [List.filter_eq_nil_iff]
        intro b hb hbk
        exact h.1 (hk ▸ (beq_iff_eq.mp hbk) ▸ List.mem_map_of_mem f hb)
      simp [List.filter_cons, hk, this]
    · have : (f a == k) = false := beq_eq_false_iff_ne.mpr hk
      simpa [List.filter_cons, this] using ih h.2

theorem filter_eq_find_of_nodup {α β : Type} [BEq β] [LawfulBEq β] (f : α → β)
    {l : List α} (h : (l.map f).Nodup) (k : β) :
    (l.filter fun a => f a == k) = (l.find? fun a => f a == k).toList := by
  induction l with
  | nil => rfl
  | cons a l ih =>
    rw [List.map_cons, List.nodup_cons] at h
    by_cases hk : f a = k
    · have hfe : (l.filter fun a => f a == k) = [] := by
        rw [List.filter_eq_nil_iff]
        intro b hb hbk
        exact h.1 (hk ▸ (beq_iff_eq.mp hbk) ▸ List.mem_map_of_mem f hb)
      simp [List.filter_cons, List.find?_cons, beq_iff_eq.mpr hk, hfe]
    · have hne : (f a == k) = false := beq_eq_false_iff_ne.mpr hk
      simp only [List.filter_cons, hne, Bool.false_eq_true, if_false,
        List.find?_cons, hne]
      exact ih h.2

theorem left_join_length {α β γ : Type} (l : List α) (lookup : α → List β)
    (miss : α → γ) (hit : α → β → γ)
    (h : ∀ a ∈ l, (lookup a).length ≤ 1) :
    (left_join_rows l lookup miss hit).length = l.length := by
  induction l with
  | nil => rfl
  | cons a l ih =>
    rw [left_join_rows, List.flatMap_cons, List.length_append]
    have tail : (l.flatMap fun a => match lookup a with
        | [] => [miss a]
        | bs => bs.map (hit a)).length = l.length :=
      ih fun b hb => h b (List.mem_cons_of_mem a hb)
    have head : (match lookup a with
        | [] => [miss a]
        | bs => bs.map (hit a)).length = 1 := by
      rcases hl : lookup a with _ | ⟨b, bs⟩
      · rfl
      · have := h a (List.mem_cons_self a l)
        rw [hl] at this
        have hb0 : bs = [] := by
          cases bs with
          | nil => rfl
          | cons c cs =>
            simp only [List.length_cons] at this
            omega
        subst hb0
        rfl
    rw [head, tail, List.length_cons, Nat.add_comm]

theorem left_join_map {α β γ δ : Type} (l : List α) (lookup : α → List β)
    (miss : α → γ) (hit : α → β → γ) (g : γ → δ) (gv : α → δ)
    (hle : ∀ a ∈ l, (lookup a).length ≤ 1)
    (hmiss : ∀ a, g (miss a) = gv a) (hhit : ∀ a b, g (hit a b) = gv a) :
    (left_join_rows l lookup miss hit).map g = l.map gv := by
  induction l with
  | nil => rfl
  | cons a l ih =>
    rw [left_join_rows, List.flatMap_cons, List.map_append]
    have tail := ih fun b hb => hle b (List.mem_cons_of_mem a hb)
    rw [left_join_rows] at tail
    rw [tail]
    have head : (match lookup a with
        | [] => [miss a]
        | bs => bs.map (hit a)).map g = [gv a] := by
      rcases hl : lookup a with _ | ⟨b, bs⟩
      · simp [hmiss]
      · have := hle a (List.mem_cons_self a l)
        rw [hl] at this
        have hb0 : bs = [] := by
          cases bs with
          | nil => rfl
          | cons c cs =>
            simp only [List.length_cons] at this
            omega
        subst hb0
        simp [hhit]
    rw [head]
    rfl

theorem mem_left_join {α β γ : Type} {l : List α} {lookup : α → List β}
    {miss : α → γ} {hit : α → β → γ} {c : γ}
    (h : c ∈ left_join_rows l lookup miss hit) :
    ∃ a ∈ l, (lookup a = [] ∧ c = miss a) ∨ ∃ b ∈ lookup a, c = hit a b := by
  rw [left_join_rows, List.mem_flatMap] at h
  obtain ⟨a, ha, hc⟩ := h
  refine ⟨a, ha, ?_⟩
  rcases hl : lookup a with _ | ⟨b, bs⟩
  · rw [hl] at hc
    exact Or.inl ⟨rfl, List.mem_singleton.mp hc⟩
  · rw [hl, List.mem_map] at hc
    obtain ⟨b', hb', hc⟩ := hc
    exact Or.inr ⟨b', hl ▸ hb', hc.symm⟩

theorem filter_sublist_filter_of_imp {α : Type} (l : List α) {p q : α → Bool}
    (h : ∀ a ∈ l, p a = true → q a = true) :
    (l.filter p).Sublist (l.filter q) := by
  induction l with
  | nil => exact List.Sublist.refl _
  | cons a l ih =>
    have tail := ih fun b hb => h b (List.mem_cons_of_mem a hb)
    by_cases hp : p a = true
    · rw [List.filter_cons_of_pos hp,
        List.filter_cons_of_pos (h a (List.mem_cons_self a l) hp)]
      exact tail.cons₂ a
    · rw [List.filter_cons_of_neg (by simpa using hp)]
      by_cases hq : q a = true
      · rw [List.filter_cons_of_pos hq]
        exact tail.cons a
      · rw [List.filter_cons_of_neg (by simpa using hq)]
        exact tail

theorem map_sum_eq_single {α : Type} {l : List α} {f : α → ℕ} {P : α → Bool}
    {a0 : α} (h0 : a0 ∈ l) (hP : P a0 = true) (hcount : l.countP P = 1)
    (hzero : ∀ a ∈ l, P a = false → f a = 0) :
    (l.map f).sum = f a0 := by
  induction l with
  | nil => cases h0
  | cons a l ih =>
    rw [List.countP_cons] at hcount
    rw [List.map_cons, List.sum_cons]
    by_cases ha : P a = true
    · have hl0 : l.countP P = 0 := by
        simp only [ha, if_true] at hcount
        omega
      have hsum : (l.map f).sum = 0 := by
        rw [List.sum_eq_zero]
        intro x hx
        rw [List.mem_map] at hx
        obtain ⟨b, hb, hx⟩ := hx
        have hPb : P b = false :=
          Bool.eq_false_iff.mpr (List.countP_eq_zero.mp hl0 b hb)
        exact hx ▸ hzero b (List.mem_cons_of_mem a hb) hPb
      rcases List.mem_cons.mp h0 with rfl | hmem
      · rw [hsum, Nat.add_zero]
      · exact absurd (List.countP_eq_zero.mp hl0 a0 hmem) (by simp [hP])
    · have hfa : f a = 0 :=
        hzero a (List.mem_cons_self a l) (Bool.eq_false_iff.mpr ha)
      have hmem : a0 ∈ l := by
        rcases List.mem_cons.mp h0 with rfl | hmem
        · exact absurd hP ha
        · exact hmem
      rw [hfa, Nat.zero_add]
      exact ih hmem (by simpa [ha] using hcount)
        fun b hb hbf => hzero b (List.mem_cons_of_mem a hb) hbf

theorem uniqueList_subset (l : List ℕ) : ∀ a ∈ uniqueList l, a ∈ l := by
  induction l using uniqueList.induct with
  | case1 =>
    intro a ha
    rw [uniqueList] at ha
    cases ha
  | case2 b l ih =>
    intro a ha
    rw [uniqueList] at ha
    rcases List.mem_cons.mp ha with rfl | hmem
    · exact List.mem_cons_self _ _
    · exact List.mem_cons_of_mem b (List.mem_of_mem_filter (ih a hmem))

theorem uniqueList_nodup (l : List ℕ) : (uniqueList l).Nodup := by
  induction l using uniqueList.induct with
  | case1 =>
    rw [uniqueList]
    exact List.nodup_nil
  | case2 a l ih =>
    rw [uniqueList, List.nodup_cons]
    refine ⟨fun hmem => ?_, ih⟩
    have := List.of_mem_filter (uniqueList_subset _ a hmem)
    simp at this

theorem length_assign_rank (l : List JRow) : (assign_rank l).length = l.length := by
  rw [assign_rank, List.length_map, List.enumFrom_length]

theorem map_rank_assign_rank (l : List JRow) :
    (assign_rank l).map JRow.rank = List.range' 1 l.length := by
  rw [assign_rank, List.map_map]
  show (List.enumFrom 1 l).map Prod.fst = _
  rw [List.enumFrom_map_fst]

theorem map_power_assign_power_rank (l : List JRow) :
    (assign_power_rank l).map JRow.power_rank = List.range' 1 l.length := by
  rw [assign_power_rank, List.map_map]
  show (List.enumFrom 1 l).map Prod.fst = _
  rw [List.enumFrom_map_fst]

theorem map_power_assign_rank (l : List JRow) :
    (assign_rank l).map JRow.power_rank = l.map JRow.power_rank := by
  rw [assign_rank, List.map_map]
  show (List.enumFrom 1 l).map (JRow.power_rank ∘ Prod.snd) = _
  rw [← List.map_map, List.enumFrom_map_snd]

theorem map_fst_flatMap_opt {l : List ℕ} {f : ℕ → List (ℕ × ℚ)}
    (h : ∀ a ∈ l, f a = [] ∨ ∃ q, f a = [(a, q)]) :
    ((l.flatMap f).map Prod.fst).Sublist l := by
  induction l with
  | nil => exact List.Sublist.refl _
  | cons a l ih =>
    rw [List.flatMap_cons, List.map_append]
    have tail := ih fun b hb => h b (List.mem_cons_of_mem a hb)
    rcases h a (List.mem_cons_self a l) with ha | ⟨q, ha⟩
    · rw [ha]
      exact tail.cons a
    · rw [ha]
      exact tail.cons₂ a

/-- Under distinct roster ids, the engine's `opponents` frame is exactly
the matchup rows tagged with the merged win percentage of their roster. -/
theorem opponents_table_eq (ms : List MRow) (rs : List Roster)
    (hnd : (rs.map Roster.roster_id).Nodup) :
    opponents_table ms rs = ms.map fun o =>
      ⟨o.roster_id, o.matchup_id, o.points, o.week, wp_nan rs o.roster_id⟩ := by
  rw [opponents_table, left_join_rows]
  apply flatMap_eq_map_of
  intro o ho
  rw [filter_eq_find_of_nodup Roster.roster_id hnd]
  cases hf : rs.find? (fun r => r.roster_id == o.roster_id) with
  | none => simp only [wp_nan, hf, Option.toList]
  | some r => simp only [wp_nan, hf, Option.toList, List.map_cons, List.map_nil]

/-! ### Claim C8: the strength-classifier quadrants -/

/-- Claim C8: `get_strength_group` labels a team Juggernaut exactly when
its points-for exceed the league mean and its points-against are at most
the league mean; Trash exactly in the opposite quadrant; and Mediocre in
the two remaining quadrants. -/
theorem strength_group_quadrants (pf pa mf ma : ℚ) :
    (get_strength_group pf pa mf ma = Group.Juggernaut ↔ mf < pf ∧ pa ≤ ma) ∧
    (get_strength_group pf pa mf ma = Group.Trash ↔ pf ≤ mf ∧ ma < pa) ∧
    (get_strength_group pf pa mf ma = Group.Mediocre ↔
      ((mf < pf ∧ ma < pa) ∨ (pf ≤ mf ∧ pa ≤ ma))) := by
  unfold get_strength_group
  split_ifs with h1 h2 h3
  · exact ⟨⟨fun h => (nomatch h), fun h => absurd h.2 (not_le.mpr h1.2)⟩,
      ⟨fun h => (nomatch h), fun h => absurd h1.1 (not_lt.mpr h.1)⟩,
      ⟨fun _ => Or.inl h1, fun _ => rfl⟩⟩
  · refine ⟨⟨fun _ => h2, fun _ => rfl⟩,
      ⟨fun h => (nomatch h), fun h => absurd h2.1 (not_lt.mpr h.1)⟩,
      ⟨fun h => (nomatch h), fun h => ?_⟩⟩
    rcases h with hq | ⟨hl, _⟩
    · exact absurd hq h1
    · exact absurd h2.1 (not_lt.mpr hl)
  · refine ⟨⟨fun h => (nomatch h), fun h => absurd h.1 (not_lt.mpr h3.1)⟩,
      ⟨fun _ => h3, fun _ => rfl⟩,
      ⟨fun h => (nomatch h), fun h => ?_⟩⟩
    rcases h with ⟨hl, _⟩ | ⟨_, hr⟩
    · exact absurd hl (not_lt.mpr h3.1)
    · exact absurd h3.2 (not_lt.mpr hr)
  · have hple : pf ≤ mf := by
      by_contra hc
      rw [not_le] at hc
      rcases le_or_lt pa ma with hle | hgt
      · exact h2 ⟨hc, hle⟩
      · exact h1 ⟨hc, hgt⟩
    have hale : pa ≤ ma := by
      by_contra hc
      rw [not_le] at hc
      exact h3 ⟨hple, hc⟩
    exact ⟨⟨fun h => (nomatch h), fun h => absurd h.1 (not_lt.mpr hple)⟩,
      ⟨fun h => (nomatch h), fun h => absurd h.2 (not_lt.mpr hale)⟩,
      ⟨fun _ => Or.inr ⟨hple, hale⟩, fun _ => rfl⟩⟩

/-! ### Claim C2: the unguarded win-percentage division -/

/-- Claim C2 counterexample: for a roster with `wins = ties = losses = 0`
the win percentage the Power Ranking Engine computes is the NaN of the
float division `0 / 0` (modelled `none`), not `0`. -/
theorem win_percent_zero_games_cex :
    win_percent ⟨1, 1, 0, 0, 0, 0, 0⟩ = none ∧
      win_percent ⟨1, 1, 0, 0, 0, 0, 0⟩ ≠ some 0 := by
  decide

/-- Claim C2 (amended): the engine's win percentage is the undefined NaN
value — not 0 — when `wins + ties + losses = 0`, and equals
`wins / (wins + ties + losses)` when at least one game was played. -/
theorem win_percent_cases (r : Roster) :
    (r.games = 0 → win_percent r = none) ∧
    (r.games ≠ 0 → win_percent r = some ((r.wins : ℚ) / (r.games : ℚ))) := by
  constructor
  · intro h
    rw [win_percent, if_pos h]
  · intro h
    rw [win_percent, if_neg h]

/-- Witness for `win_percent_cases` at two concrete rosters. -/
theorem win_percent_cases_witness :
    win_percent ⟨1, 1, 0, 0, 0, 0, 0⟩ = none ∧
      win_percent ⟨1, 1, 1, 0, 1, 0, 0⟩ = some (((1 : ℕ) : ℚ) / ((2 : ℕ) : ℚ)) :=
  ⟨(win_percent_cases _).1 rfl, (win_percent_cases _).2 (by decide)⟩

/-! ### Claim C4: the two rank columns are dense permutations of 1..N -/

/-- Claim C4: in the standings table, the `Rank` column is exactly
`1..N` in row order (it is assigned by position after the final sort on
descending `(wins, points_for)`), and the `Power Rank` column — assigned
by position after the sort on descending `(rank_score, points_for)` and
then carried through the re-sort — is a permutation of `1..N`: both are
dense, with no duplicate and no gap. -/
theorem standings_ranks_dense (users : List User) (rosters : List Roster)
    (power_ranks : List (ℕ × ℚ)) :
    (format_standings users rosters power_ranks).map StandingRow.rank
        = List.range' 1 (format_standings users rosters power_ranks).length ∧
    ((format_standings users rosters power_ranks).map StandingRow.power_rank).Perm
      (List.range' 1 (format_standings users rosters power_ranks).length) := by
  unfold format_standings
  set s := sortRows power_sort_before (standings_table users rosters power_ranks)
    with hs
  set t := sortRows rank_sort_before (assign_power_rank s) with htdef
  have hlen_ts : t.length = s.length := by
    rw [htdef, length_sortRows, assign_power_rank, List.length_map,
      List.enumFrom_length]
  constructor
  · rw [List.map_map, List.length_map]
    show (assign_rank t).map JRow.rank = _
    rw [map_rank_assign_rank, length_assign_rank]
  · rw [List.map_map, List.length_map]
    show ((assign_rank t).map JRow.power_rank).Perm _
    rw [map_power_assign_rank, length_assign_rank, hlen_ts]
    have hperm : (t.map JRow.power_rank).Perm ((assign_power_rank s).map JRow.power_rank) :=
      (sortRows_perm rank_sort_before (assign_power_rank s)).map JRow.power_rank
    rw [map_power_assign_power_rank] at hperm
    exact hperm

/-! ### Claim C6: the opponent pairing -/

/-- Claim C6 counterexample: when a `matchup_id` groups three entries in
a week (which satisfies "at least two entries"), the self-merge pairs a
roster once with each of the two other entries — twice, not exactly
once. -/
theorem opponent_pairing_cex :
    (([⟨1, 10, 1, 1⟩, ⟨2, 8, 1, 1⟩, ⟨3, 7, 1, 1⟩] : List MRow).filter fun o =>
        o.matchup_id == 1 && o.week == 1).length = 3 ∧
    (box_scores [⟨1, 10, 1, 1⟩, ⟨2, 8, 1, 1⟩, ⟨3, 7, 1, 1⟩]).countP
        (fun b => b.roster_id == 1 && b.week == 1) = 2 := by
  decide

/-- Claim C6 (amended): a pairing row never pairs a roster with itself,
unconditionally; and a roster whose single week-`w` entry sits in a
`(matchup_id, week)` group of exactly two entries, exactly one of which
carries the roster's id, is paired exactly once in that week.  (In a
group of `k ≥ 2` distinct entries the roster is paired `k - 1` times,
once per other entry, as the counterexample shows for `k = 3`.) -/
theorem beq_comm_nat (a b : ℕ) : (a == b) = (b == a) := by
  by_cases h : a = b
  · rw [h]
  · rw [beq_eq_false_iff_ne.mpr h, beq_eq_false_iff_ne.mpr (Ne.symm h)]

theorem box_count_aux (all : List MRow) (R w : ℕ) (l : List MRow) :
    ((l.flatMap fun m =>
        (all.filter fun o =>
            o.matchup_id == m.matchup_id && o.week == m.week).map fun o =>
          (⟨m.roster_id, m.points, m.matchup_id, m.week,
            o.roster_id, o.points⟩ : BRow)).filter
      fun b => !(b.roster_id == b.opponent_id)).countP
        (fun b => b.roster_id == R && b.week == w)
    = (l.map fun m =>
        if m.roster_id == R && m.week == w then
          (all.filter fun o =>
              o.matchup_id == m.matchup_id && o.week == m.week).countP
            fun o => !(m.roster_id == o.roster_id)
        else 0).sum := by
  induction l with
  | nil => rfl
  | cons m l ih =>
    rw [List.flatMap_cons, List.filter_append, List.countP_append, ih,
      List.map_cons, List.sum_cons]
    have hhead : (((all.filter fun o =>
          o.matchup_id == m.matchup_id && o.week == m.week).map fun o =>
        (⟨m.roster_id, m.points, m.matchup_id, m.week,
          o.roster_id, o.points⟩ : BRow)).filter
        fun b => !(b.roster_id == b.opponent_id)).countP
          (fun b => b.roster_id == R && b.week == w)
        = if m.roster_id == R && m.week == w then
            (all.filter fun o =>
                o.matchup_id == m.matchup_id && o.week == m.week).countP
              fun o => !(m.roster_id == o.roster_id)
          else 0 := by
      rw [List.countP_filter, List.countP_map]
      by_cases hm : (m.roster_id == R && m.week == w) = true
      · rw [if_pos hm]
        apply List.countP_congr
        intro o ho
        simp [Function.comp, hm]
      · rw [if_neg hm]
        rw [List.countP_eq_zero]
        intro o ho hpred
        simp only [Function.comp_apply, Bool.and_eq_true, beq_iff_eq] at hpred
        exact hm (by simp [hpred.1.1, hpred.1.2])
    rw [hhead]

/-- One matchup row's contribution to the engine's week-`w` pairing
count: with the opponent frame written as merged rows, the row is paired
once with each group entry carrying a different roster id — and not at
all when its week is not `w`. -/
theorem curr_head_count (rs : List Roster) (m : MRow) (w : ℕ)
    (all : List MRow) :
    (((all.map fun o : MRow =>
        (⟨o.roster_id, o.matchup_id, o.points, o.week,
          wp_nan rs o.roster_id⟩ : OppRow)).filter fun o =>
        o.matchup_id == m.matchup_id && o.week == m.week).map fun o =>
      (⟨m.roster_id, m.points, m.matchup_id, m.week,
        o.opponent_id, o.opponent_points, o.win_percent⟩ : PairRow)).countP
      (fun p => p.week == w && !(p.roster_id == p.opponent_id))
    = if m.week == w then
        (all.filter fun o =>
            o.matchup_id == m.matchup_id && o.week == m.week).countP
          fun o => !(m.roster_id == o.roster_id)
      else 0 := by
  by_cases hw : (m.week == w) = true
  · rw [if_pos hw]
    induction all with
    | nil => rfl
    | cons o l ih =>
      simp only [List.map_cons, List.filter_cons]
      by_cases hq : (o.matchup_id == m.matchup_id && o.week == m.week) = true
      · rw [if_pos hq, if_pos hq, List.map_cons, List.countP_cons,
          List.countP_cons, ih]
        congr 1
        simp [hw]
      · rw [if_neg hq, if_neg hq]
        exact ih
  · have hw' : (m.week == w) = false := Bool.eq_false_iff.mpr hw
    rw [if_neg hw]
    rw [List.countP_eq_zero]
    intro p hp
    rw [List.mem_map] at hp
    obtain ⟨o, _, rfl⟩ := hp
    simp [hw']

/-- The engine's pairing count, summed over a frame of matchup rows:
each row with the counted week contributes one pairing per non-self
entry of its `(matchup_id, week)` group. -/
theorem curr_count_aux (rs : List Roster) (all : List MRow) (w : ℕ)
    (l : List MRow) :
    ((l.flatMap fun m =>
        ((all.map fun o : MRow =>
            (⟨o.roster_id, o.matchup_id, o.points, o.week,
              wp_nan rs o.roster_id⟩ : OppRow)).filter fun o =>
            o.matchup_id == m.matchup_id && o.week == m.week).map fun o =>
          (⟨m.roster_id, m.points, m.matchup_id, m.week,
            o.opponent_id, o.opponent_points, o.win_percent⟩ : PairRow)).filter
      fun p => !(p.roster_id == p.opponent_id)).countP (fun p => p.week == w)
    = (l.map fun m =>
        if m.week == w then
          (all.filter fun o =>
              o.matchup_id == m.matchup_id && o.week == m.week).countP
            fun o => !(m.roster_id == o.roster_id)
        else 0).sum := by
  induction l with
  | nil => rfl
  | cons m l ih =>
    rw [List.flatMap_cons, List.filter_append, List.countP_append, ih,
      List.map_cons, List.sum_cons]
    have hhead : ((((all.map fun o : MRow =>
          (⟨o.roster_id, o.matchup_id, o.points, o.week,
            wp_nan rs o.roster_id⟩ : OppRow)).filter fun o =>
          o.matchup_id == m.matchup_id && o.week == m.week).map fun o =>
        (⟨m.roster_id, m.points, m.matchup_id, m.week,
          o.opponent_id, o.opponent_points, o.win_percent⟩ : PairRow)).filter
        fun p => !(p.roster_id == p.opponent_id)).countP (fun p => p.week == w)
        = if m.week == w then
            (all.filter fun o =>
                o.matchup_id == m.matchup_id && o.week == m.week).countP
              fun o => !(m.roster_id == o.roster_id)
          else 0 := by
      rw [List.countP_filter]
      exact curr_head_count rs m w all
    rw [hhead]

theorem opponent_pairing_amended (ms : List MRow) (rs : List Roster)
    (R w : ℕ) (m0 : MRow)
    (h0 : m0 ∈ ms) (hr : m0.roster_id = R) (hw : m0.week = w)
    (hnd : (rs.map Roster.roster_id).Nodup)
    (honce : ms.countP (fun m => m.roster_id == R && m.week == w) = 1)
    (hgrpR : (ms.filter fun o =>
        o.matchup_id == m0.matchup_id && o.week == w).countP
      (fun o => o.roster_id == R) = 1) :
    (box_scores ms).countP (fun b => b.roster_id == R && b.week == w)
        = (ms.filter fun o =>
            o.matchup_id == m0.matchup_id && o.week == w).length - 1 ∧
    (curr_matchups_joined ms rs R).countP (fun p => p.week == w)
        = (ms.filter fun o =>
            o.matchup_id == m0.matchup_id && o.week == w).length - 1 ∧
    ((box_scores ms).countP (fun b => b.roster_id == R && b.week == w) = 1 ↔
      (ms.filter fun o =>
          o.matchup_id == m0.matchup_id && o.week == w).length = 2) ∧
    (∀ b ∈ box_scores ms, b.roster_id ≠ b.opponent_id) ∧
    (∀ p ∈ curr_matchups_joined ms rs R, p.roster_id ≠ p.opponent_id) := by
  subst hr
  subst hw
  have hm0grp : m0 ∈ ms.filter fun o =>
      o.matchup_id == m0.matchup_id && o.week == m0.week :=
    List.mem_filter.mpr ⟨h0, by simp⟩
  have hlen : 1 ≤ (ms.filter fun o =>
      o.matchup_id == m0.matchup_id && o.week == m0.week).length :=
    List.length_pos_of_mem hm0grp
  have hcnt : (ms.filter fun o =>
      o.matchup_id == m0.matchup_id && o.week == m0.week).countP
        (fun o => !(m0.roster_id == o.roster_id))
      = (ms.filter fun o =>
          o.matchup_id == m0.matchup_id && o.week == m0.week).length - 1 := by
    have hsplit := List.length_eq_countP_add_countP
      (fun o : MRow => o.roster_id == m0.roster_id)
      (ms.filter fun o => o.matchup_id == m0.matchup_id && o.week == m0.week)
    rw [List.countP_congr (fun o _ => by
      rw [beq_comm_nat m0.roster_id o.roster_id])]
    rw [List.countP_congr (p := fun o : MRow => !(o.roster_id == m0.roster_id))
      (q := fun o : MRow => decide ¬((o.roster_id == m0.roster_id) = true))
      (fun o _ => by simp)]
    omega
  have hbox : (box_scores ms).countP
      (fun b => b.roster_id == m0.roster_id && b.week == m0.week)
      = (ms.filter fun o =>
          o.matchup_id == m0.matchup_id && o.week == m0.week).length - 1 := by
    rw [box_scores, box_count_aux ms m0.roster_id m0.week ms]
    rw [map_sum_eq_single h0 (by simp) honce
      (fun m hm hPm => by rw [if_neg (by simp [hPm])])]
    rw [if_pos (by simp)]
    exact hcnt
  refine ⟨hbox, ?_, ?_, ?_, ?_⟩
  · rw [curr_matchups_joined, opponents_table_eq ms rs hnd,
      curr_count_aux rs ms m0.week (ms.filter fun m => m.roster_id == m0.roster_id)]
    have hmem : m0 ∈ ms.filter fun m => m.roster_id == m0.roster_id :=
      List.mem_filter.mpr ⟨h0, by simp⟩
    have hcount : (ms.filter fun m => m.roster_id == m0.roster_id).countP
        (fun m => m.week == m0.week) = 1 := by
      rw [List.countP_filter]
      refine Eq.trans (List.countP_congr fun m _ => ?_) honce
      show ((m.week == m0.week) && (m.roster_id == m0.roster_id)) = true
          ↔ ((m.roster_id == m0.roster_id) && (m.week == m0.week)) = true
      rw [Bool.and_comm]
    rw [map_sum_eq_single hmem (by simp) hcount
      (fun m hm hPm => by rw [if_neg (by simp [hPm])])]
    rw [if_pos (by simp)]
    exact hcnt
  · rw [hbox]
    constructor
    · intro h1
      omega
    · intro h2
      omega
  · intro b hb
    have hfb := List.of_mem_filter hb
    rw [Bool.not_eq_true', beq_eq_false_iff_ne] at hfb
    exact hfb
  · intro p hp
    rw [curr_matchups_joined] at hp
    have hfp := List.of_mem_filter hp
    rw [Bool.not_eq_true', beq_eq_false_iff_ne] at hfp
    exact hfp

/-- Witness for `opponent_pairing_amended` at a two-entry matchup: the
group has two entries, so the pairing count is `2 - 1`. -/
theorem opponent_pairing_amended_witness :
    (box_scores [⟨1, 10, 1, 1⟩, ⟨2, 8, 1, 1⟩]).countP
        (fun b => b.roster_id == 1 && b.week == 1)
      = (([⟨1, 10, 1, 1⟩, ⟨2, 8, 1, 1⟩] : List MRow).filter fun o =>
          o.matchup_id == (⟨1, 10, 1, 1⟩ : MRow).matchup_id
            && o.week == 1).length - 1 :=
  (opponent_pairing_amended [⟨1, 10, 1, 1⟩, ⟨2, 8, 1, 1⟩]
    [⟨1, 5, 1, 0, 0, 10, 8⟩, ⟨2, 6, 0, 0, 1, 8, 10⟩] 1 1 ⟨1, 10, 1, 1⟩
    (by decide) rfl rfl (by decide) (by decide) (by decide)).1

/-! ### Claim C5: monotonicity of the cumulative rank-race fields -/

/-- Claim C5 counterexample: with a negative weekly score (a value the
points column does not rule out), the cumulative points of a roster
decrease from one week to the next. -/
theorem cumulative_points_decrease_cex :
    cumulative_points
        (box_scores [⟨1, 5, 1, 1⟩, ⟨2, 3, 1, 1⟩, ⟨1, -4, 1, 2⟩, ⟨2, 6, 1, 2⟩]) 1 2
      < cumulative_points
        (box_scores [⟨1, 5, 1, 1⟩, ⟨2, 3, 1, 1⟩, ⟨1, -4, 1, 2⟩, ⟨2, 6, 1, 2⟩]) 1 1 := by
  simp only [cumulative_points, box_scores, List.flatMap_cons, List.flatMap_nil,
    List.filter_cons, List.filter_nil]
  norm_num

/-- Helper: every `box_scores` row carries the points of one of the
underlying matchup rows. -/
theorem box_scores_points {ms : List MRow} {b : BRow} (h : b ∈ box_scores ms) :
    ∃ m ∈ ms, b.points = m.points := by
  rw [box_scores] at h
  have h' := List.mem_of_mem_filter h
  rw [List.mem_flatMap] at h'
  obtain ⟨m, hm, hb⟩ := h'
  rw [List.mem_map] at hb
  obtain ⟨o, _, rfl⟩ := hb
  exact ⟨m, hm, rfl⟩

/-- Claim C5 (amended): for any roster, the cumulative win count of
`apply_cumulative_rank` is non-decreasing in the week unconditionally,
and the cumulative points total is non-decreasing provided every weekly
score is nonnegative (the code sums raw weekly points, so a negative
score — possible in the points column — breaks monotonicity, as the
counterexample shows). -/
theorem cumulative_monotone (ms : List MRow) (roster w w' : ℕ) (hw : w ≤ w') :
    cumulative_wins (box_scores ms) roster w
        ≤ cumulative_wins (box_scores ms) roster w' ∧
    ((∀ m ∈ ms, 0 ≤ m.points) →
      cumulative_points (box_scores ms) roster w
        ≤ cumulative_points (box_scores ms) roster w') := by
  have hsub : ∀ box : List BRow,
      (((box.filter fun b => decide (b.week ≤ w)).filter
          fun b => b.roster_id == roster)).Sublist
        (((box.filter fun b => decide (b.week ≤ w')).filter
          fun b => b.roster_id == roster)) := by
    intro box
    refine List.Sublist.filter _ ?_
    refine filter_sublist_filter_of_imp box fun b hb hbw => ?_
    simp only [decide_eq_true_eq] at hbw ⊢
    omega
  constructor
  · exact List.Sublist.sum_le_sum ((hsub _).map _) fun a _ => Nat.zero_le a
  · intro hpts
    refine List.Sublist.sum_le_sum ((hsub _).map _) ?_
    intro a ha
    rw [List.mem_map] at ha
    obtain ⟨b, hb, rfl⟩ := ha
    have hbm : b ∈ box_scores ms :=
      List.mem_of_mem_filter (List.mem_of_mem_filter hb)
    obtain ⟨m, hm, hp⟩ := box_scores_points hbm
    exact hp ▸ hpts m hm

/-- Witness for `cumulative_monotone` at a concrete one-week league. -/
theorem cumulative_monotone_witness :
    cumulative_wins (box_scores [⟨1, 5, 1, 1⟩, ⟨2, 3, 1, 1⟩]) 1 1
        ≤ cumulative_wins (box_scores [⟨1, 5, 1, 1⟩, ⟨2, 3, 1, 1⟩]) 1 2 ∧
    cumulative_points (box_scores [⟨1, 5, 1, 1⟩, ⟨2, 3, 1, 1⟩]) 1 1
        ≤ cumulative_points (box_scores [⟨1, 5, 1, 1⟩, ⟨2, 3, 1, 1⟩]) 1 2 :=
  ⟨(cumulative_monotone [⟨1, 5, 1, 1⟩, ⟨2, 3, 1, 1⟩] 1 1 2 (by decide)).1,
   (cumulative_monotone [⟨1, 5, 1, 1⟩, ⟨2, 3, 1, 1⟩] 1 1 2 (by decide)).2
     (by decide)⟩

/-! ### Claim C9: termination and shape of the matchup-fetching loop -/

/-- Loop invariant for `fetch_weeks`: starting at any week with enough
fuel to reach the ceiling, the loop breaks (never exhausts its fuel) and
returns the accumulator extended by the week-tagged rows of the
contiguous weeks up to the stopping week `W`. -/
theorem fetch_weeks_spec (oracle : ℕ → List RawMatchup) :
    ∀ fuel week acc, 1 ≤ week → week ≤ 16 → week + fuel = 17 →
      ∃ W out, fetch_weeks oracle fuel week acc = some out ∧
        week - 1 ≤ W ∧ W ≤ 15 ∧
        out = acc ++ (List.range' week (W + 1 - week)).flatMap
          (fun v => (oracle v).map fun r =>
            ⟨r.roster_id, r.points, r.matchup_id, v⟩) ∧
        (∀ v, week ≤ v → v ≤ W → oracle v ≠ []) ∧
        (W = 15 ∨ oracle (W + 1) = []) := by
  intro fuel
  induction fuel with
  | zero =>
    intro week acc h1 h16 h17
    omega
  | succ fuel ih =>
    intro week acc h1 h16 h17
    have hstep : fetch_weeks oracle (fuel + 1) week acc
        = if (oracle week).length = 0 ∨ 15 < week then some acc
          else fetch_weeks oracle fuel (week + 1)
            (acc ++ (oracle week).map fun r =>
              ⟨r.roster_id, r.points, r.matchup_id, week⟩) := rfl
    by_cases hbreak : (oracle week).length = 0 ∨ 15 < week
    · refine ⟨week - 1, acc, ?_, le_refl _, by omega, ?_, ?_, ?_⟩
      · rw [hstep, if_pos hbreak]
      · have h0 : week - 1 + 1 - week = 0 := by omega
        rw [h0]
        simp
      · intro v hv hv'
        omega
      · rcases hbreak with hemp | hgt
        · right
          have hwk : week - 1 + 1 = week := by omega
          rw [hwk]
          exact List.length_eq_zero.mp hemp
        · left
          omega
    · push_neg at hbreak
      obtain ⟨hne, hle15⟩ := hbreak
      obtain ⟨W, out, hfw, hW1, hW15, hout, hall, hstop⟩ :=
        ih (week + 1)
          (acc ++ (oracle week).map fun r =>
            ⟨r.roster_id, r.points, r.matchup_id, week⟩)
          (by omega) (by omega) (by omega)
      refine ⟨W, out, ?_, by omega, hW15, ?_, ?_, hstop⟩
      · rw [hstep, if_neg (by push_neg; exact ⟨hne, hle15⟩)]
        exact hfw
      · rw [hout, List.append_assoc]
        have hsplit : W + 1 - week = (W + 1 - (week + 1)) + 1 := by omega
        rw [hsplit, List.range'_succ, List.flatMap_cons]
      · intro v hv hv'
        rcases Nat.eq_or_lt_of_le hv with rfl | hlt
        · intro hc
          exact hne (by rw [hc]; rfl)
        · exact hall v (by omega) hv'

/-- Claim C9: for every weekly-results oracle the fetch loop terminates
(16 fuel always suffices: the result is `some`, never the fuel-exhaustion
`none`), and its output is exactly the week-tagged rows of the contiguous
weeks `1..W` for some `W ≤ 15`, where every week up to `W` returned a
non-empty result, and the loop stopped either at the ceiling (`W = 15`)
or at the first empty week (`oracle (W+1) = []`). -/
theorem get_matchups_terminates (oracle : ℕ → List RawMatchup) :
    ∃ out W, get_matchups oracle = some out ∧ W ≤ 15 ∧
      out = (List.range' 1 W).flatMap
        (fun v => (oracle v).map fun r =>
          ⟨r.roster_id, r.points, r.matchup_id, v⟩) ∧
      (∀ v, 1 ≤ v → v ≤ W → oracle v ≠ []) ∧
      (W = 15 ∨ oracle (W + 1) = []) := by
  obtain ⟨W, out, hfw, _, hW15, hout, hall, hstop⟩ :=
    fetch_weeks_spec oracle 16 1 [] (le_refl 1) (by omega) rfl
  refine ⟨out, W, hfw, hW15, ?_, hall, hstop⟩
  rw [hout, List.nil_append]
  have hW : W + 1 - 1 = W := by omega
  rw [hW]

/-- Witness for `get_matchups_terminates` at the constant-empty oracle. -/
theorem get_matchups_terminates_witness :
    ∃ out W, get_matchups (fun _ => ([] : List RawMatchup)) = some out ∧
      W ≤ 15 ∧
      out = (List.range' 1 W).flatMap
        (fun v => (([] : List RawMatchup)).map fun r =>
          ⟨r.roster_id, r.points, r.matchup_id, v⟩) ∧
      (∀ v, 1 ≤ v → v ≤ W → ([] : List RawMatchup) ≠ []) ∧
      (W = 15 ∨ ([] : List RawMatchup) = []) :=
  get_matchups_terminates (fun _ => [])

/-! ### Claims C7 and C3: the standings joins -/

/-- The power table produced by the engine carries pairwise distinct
roster ids: the loop runs once per de-duplicated id and emits at most one
row per iteration. -/
theorem power_rankings_ids_nodup (matchups : List MRow) (rosters : List Roster) :
    ((calculate_power_rankings matchups rosters).map Prod.fst).Nodup := by
  have hsub : ((calculate_power_rankings matchups rosters).map Prod.fst).Sublist
      (uniqueList (rosters.map fun r => r.roster_id)) := by
    rw [calculate_power_rankings]
    apply map_fst_flatMap_opt
    intro R hR
    by_cases h : (curr_matchups_joined matchups rosters R).isEmpty
    · left
      rw [if_pos h]
    · right
      exact ⟨_, by rw [if_neg h]⟩
  exact List.Nodup.sublist hsub (uniqueList_nodup _)

/-- With distinct power-table keys, the power merge keeps the roster-id
column unchanged. -/
theorem merge_power_map_roster_id (t : List JRow) (pr : List (ℕ × ℚ))
    (hpr : (pr.map Prod.fst).Nodup) :
    (merge_power t pr).map JRow.roster_id = t.map JRow.roster_id := by
  rw [merge_power]
  exact left_join_map _ _ _ _ _ _
    (fun j _ => nodup_key_filter_length_le Prod.fst hpr _)
    (fun j => rfl) (fun j p => rfl)

/-- With distinct user keys, the user join yields exactly one row per
roster, in order. -/
theorem join_users_map_roster_id (rosters : List Roster) (users : List User)
    (hU : (users.map User.user_id).Nodup) :
    (join_users rosters users).map JRow.roster_id
      = rosters.map Roster.roster_id := by
  rw [join_users]
  exact left_join_map _ _ _ _ _ _
    (fun r _ => nodup_key_filter_length_le User.user_id hU _)
    (fun r => rfl) (fun r u => rfl)

/-- Claim C7: with the user table keyed by pairwise distinct `user_id`
(the data model's key constraint), the standings joins keep every roster
exactly once and in order — the joined table's roster-id column is
exactly the roster table's; and a roster whose `owner_id` matches no user
is not dropped: its row is present with null `Team` and `Owner` fields. -/
theorem standings_join_keeps_rosters (users : List User) (rosters : List Roster)
    (matchups : List MRow) (hU : (users.map User.user_id).Nodup) :
    (standings_table users rosters
        (calculate_power_rankings matchups rosters)).map JRow.roster_id
      = rosters.map Roster.roster_id ∧
    ∀ j ∈ standings_table users rosters
        (calculate_power_rankings matchups rosters),
      (∀ u ∈ users, u.user_id ≠ j.owner_id) →
        j.display_name = none ∧ j.team_name = none := by
  constructor
  · rw [standings_table,
      merge_power_map_roster_id _ _ (power_rankings_ids_nodup matchups rosters),
      join_users_map_roster_id _ _ hU]
  · intro j hj hnou
    rw [standings_table, merge_power] at hj
    obtain ⟨j0, hj0, hcase⟩ := mem_left_join hj
    have hfields : j.display_name = j0.display_name ∧
        j.team_name = j0.team_name ∧ j.owner_id = j0.owner_id := by
      rcases hcase with ⟨_, rfl⟩ | ⟨p, _, rfl⟩ <;> exact ⟨rfl, rfl, rfl⟩
    rw [join_users] at hj0
    obtain ⟨r, _, hcase0⟩ := mem_left_join hj0
    rcases hcase0 with ⟨_, rfl⟩ | ⟨u, hu, rfl⟩
    · exact ⟨hfields.1, hfields.2.1⟩
    · have humem := List.mem_of_mem_filter hu
      have hupred := List.of_mem_filter hu
      have hueq : u.user_id = r.owner_id := beq_iff_eq.mp hupred
      exact absurd (by rw [hueq, hfields.2.2]) (hnou u humem)

/-- Witness for `standings_join_keeps_rosters`: one matched and one
orphaned roster, empty matchups. -/
theorem standings_join_keeps_rosters_witness :
    (standings_table [⟨1, "a", none, none⟩]
        [⟨1, 1, 0, 0, 0, 0, 0⟩, ⟨2, 99, 0, 0, 0, 0, 0⟩]
        (calculate_power_rankings []
          [⟨1, 1, 0, 0, 0, 0, 0⟩, ⟨2, 99, 0, 0, 0, 0, 0⟩])).map JRow.roster_id
      = [1, 2] := by
  have h := (standings_join_keeps_rosters [⟨1, "a", none, none⟩]
    [⟨1, 1, 0, 0, 0, 0, 0⟩, ⟨2, 99, 0, 0, 0, 0, 0⟩] [] (by decide)).1
  simpa using h

/-- Claim C3 counterexample: a roster appearing in no matchup row is
absent from the engine's power table altogether, and the standings left
merge leaves its `rank_score` null (NaN) — not the claimed 0. -/
theorem no_matchup_power_zero_cex :
    calculate_power_rankings [] [⟨1, 11, 0, 0, 0, 0, 0⟩] = [] ∧
    (standings_table [] [⟨1, 11, 0, 0, 0, 0, 0⟩]
        (calculate_power_rankings [] [⟨1, 11, 0, 0, 0, 0, 0⟩])).map
      JRow.rank_score = [none] := by
  constructor
  · simp [calculate_power_rankings, uniqueList, curr_matchups_joined,
      left_join_rows]
  · simp [calculate_power_rankings, uniqueList, curr_matchups_joined,
      left_join_rows, standings_table, merge_power, join_users]

/-- A left join never drops a left row: each left element yields at
least one output row, built by `miss` or by `hit`, so any property both
constructions satisfy holds of some output row. -/
theorem left_join_keeps {α β γ : Type} (l : List α) (lookup : α → List β)
    (miss : α → γ) (hit : α → β → γ) (P : γ → Prop) (a : α) (ha : a ∈ l)
    (hmiss : P (miss a)) (hhit : ∀ b, P (hit a b)) :
    ∃ c ∈ left_join_rows l lookup miss hit, P c := by
  rw [left_join_rows]
  rcases hl : lookup a with _ | ⟨b, bs⟩
  · refine ⟨miss a, List.mem_flatMap.mpr ⟨a, ha, ?_⟩, hmiss⟩
    rw [hl]
    exact List.mem_singleton.mpr rfl
  · refine ⟨hit a b, List.mem_flatMap.mpr ⟨a, ha, ?_⟩, hhit b⟩
    rw [hl]
    exact List.mem_map_of_mem _ (List.mem_cons_self b bs)

/-- Claim C3 (amended): a roster with no matchup rows produces no row in
the power table (the engine's `groupby` of an empty frame emits nothing,
rather than a 0 score); the standings left joins still keep a row for
the roster, and the power merge leaves its power score null (NaN,
modelled `none`), not 0. -/
theorem no_matchup_power_score_null (matchups : List MRow)
    (rosters : List Roster) (users : List User) (R : ℕ)
    (hnom : ∀ m ∈ matchups, m.roster_id ≠ R) :
    (calculate_power_rankings matchups rosters).filter
        (fun p => p.1 == R) = [] ∧
    (∀ j ∈ standings_table users rosters
        (calculate_power_rankings matchups rosters),
      j.roster_id = R → j.rank_score = none) ∧
    ((∃ r ∈ rosters, r.roster_id = R) →
      ∃ j ∈ standings_table users rosters
          (calculate_power_rankings matchups rosters),
        j.roster_id = R ∧ j.rank_score = none) := by
  have hcurr : curr_matchups_joined matchups rosters R = [] := by
    rw [curr_matchups_joined]
    have hf : (matchups.filter fun m => m.roster_id == R) = [] := by
      rw [List.filter_eq_nil_iff]
      intro m hm
      simp [beq_eq_false_iff_ne.mpr (hnom m hm)]
    rw [hf]
    rfl
  have hmain : (calculate_power_rankings matchups rosters).filter
      (fun p => p.1 == R) = [] := by
    rw [List.filter_eq_nil_iff]
    intro p hp
    rw [calculate_power_rankings, List.mem_flatMap] at hp
    obtain ⟨R', hR', hpmem⟩ := hp
    by_cases hemp : (curr_matchups_joined matchups rosters R').isEmpty
    · rw [if_pos hemp] at hpmem
      cases hpmem
    · rw [if_neg hemp] at hpmem
      rw [List.mem_singleton] at hpmem
      intro hbeq
      have hR'R : R' = R := by
        have hp1 : p.1 = R' := by rw [hpmem]
        exact hp1 ▸ beq_iff_eq.mp hbeq
      subst hR'R
      exact hemp (by rw [hcurr]; rfl)
  have hnull : ∀ j ∈ standings_table users rosters
      (calculate_power_rankings matchups rosters),
      j.roster_id = R → j.rank_score = none := by
    intro j hj hjR
    rw [standings_table, merge_power] at hj
    obtain ⟨j0, hj0, hcase⟩ := mem_left_join hj
    rcases hcase with ⟨_, rfl⟩ | ⟨p, hp, rfl⟩
    · rfl
    · exfalso
      have hmem := List.mem_of_mem_filter hp
      have hppred := List.of_mem_filter hp
      have hpeq : p.1 = j0.roster_id := beq_iff_eq.mp hppred
      have hR0 : j0.roster_id = R := hjR
      have hpmem : p ∈ (calculate_power_rankings matchups rosters).filter
          (fun q => q.1 == R) := by
        rw [List.mem_filter]
        exact ⟨hmem, by simp [hpeq, hR0]⟩
      rw [hmain] at hpmem
      cases hpmem
  refine ⟨hmain, hnull, ?_⟩
  rintro ⟨r, hrmem, hrid⟩
  obtain ⟨j0, hj0, hj0R⟩ := left_join_keeps rosters
    (fun r => users.filter fun u => u.user_id == r.owner_id)
    (fun r => (⟨r.roster_id, r.owner_id, r.wins, r.ties, r.losses,
               r.points_for, r.points_against, none, none, none, none,
               0, 0⟩ : JRow))
    (fun r u => (⟨r.roster_id, r.owner_id, r.wins, r.ties, r.losses,
                 r.points_for, r.points_against, some u.display_name,
                 u.team_name, u.avatar, none, 0, 0⟩ : JRow))
    (fun j : JRow => j.roster_id = r.roster_id) r hrmem rfl (fun u => rfl)
  obtain ⟨j, hj, hjid0⟩ := left_join_keeps (join_users rosters users)
    (fun j => (calculate_power_rankings matchups rosters).filter
      fun p => p.1 == j.roster_id)
    (fun j => { j with rank_score := none })
    (fun j p => { j with rank_score := some p.2 })
    (fun j' => j'.roster_id = j0.roster_id) j0 hj0 rfl (fun p => rfl)
  have hjid : j.roster_id = R := by rw [hjid0, hj0R, hrid]
  exact ⟨j, hj, hjid, hnull j hj hjid⟩

/-- Witness for `no_matchup_power_score_null` at a matchup-free league. -/
theorem no_matchup_power_score_null_witness :
    (calculate_power_rankings [] [⟨1, 11, 0, 0, 0, 0, 0⟩]).filter
        (fun p => p.1 == 1) = [] :=
  (no_matchup_power_score_null [] [⟨1, 11, 0, 0, 0, 0, 0⟩] [] 1
    (by decide)).1

/-! ### Claim C10: the strength view's avatar join -/

/-- Claim C10: `format_strength` attaches avatars by left-merging the
users on the `Owner` display name, not on a user or roster id.  With
pairwise distinct display names the output has exactly one row per
standings row; two users sharing a display name duplicate the matching
standings row, so one-row-per-team holds only under that uniqueness
precondition. -/
theorem strength_avatar_join_rows :
    (∀ (users : List User) (standings : List StandingRow),
        (users.map User.display_name).Nodup →
          (format_strength users standings).length = standings.length) ∧
    (([(⟨1, 1, none, some "a", 0, 0, "0-0"⟩ : StandingRow)].length = 1 ∧
      (format_strength [⟨1, "a", none, none⟩, ⟨2, "a", none, none⟩]
        [⟨1, 1, none, some "a", 0, 0, "0-0"⟩]).length = 2)) := by
  constructor
  · intro users standings hU
    have hN : (users.map fun u => some u.display_name).Nodup := by
      have h := List.Nodup.map (Option.some_injective String) hU
      rwa [List.map_map] at h
    exact left_join_length standings _ _ _
      (fun s _ => nodup_key_filter_length_le (fun u : User => some u.display_name) hN s.owner)
  · exact ⟨rfl, rfl⟩

/-- Witness for `strength_avatar_join_rows` on an empty standings table. -/
theorem strength_avatar_join_rows_witness :
    (format_strength [⟨1, "a", none, none⟩] []).length = 0 :=
  strength_avatar_join_rows.1 [⟨1, "a", none, none⟩] [] (by decide)

/-! ### Claim C1: the power score formula -/

/-- The merged NaN-able win percentage and the spec's 0-guarded win
percentage agree: wherever the merged value is NaN the spec value is 0,
and wherever it is a number the spec value is that number. -/
theorem wp_nan_spec (rs : List Roster) (rid : ℕ) :
    (wp_nan rs rid = none ∧ win_percent_spec rs rid = 0) ∨
    (∃ v, wp_nan rs rid = some v ∧ win_percent_spec rs rid = v) := by
  cases hf : rs.find? (fun r => r.roster_id == rid) with
  | none =>
    left
    constructor
    · simp only [wp_nan, hf]
    · simp only [win_percent_spec, hf]
  | some r =>
    by_cases hg : r.games = 0
    · left
      constructor
      · simp only [wp_nan, hf, win_percent, if_pos hg]
      · simp only [win_percent_spec, hf, if_pos hg]
    · right
      refine ⟨(r.wins : ℚ) / (r.games : ℚ), ?_, ?_⟩
      · simp only [wp_nan, hf, win_percent, if_neg hg]
      · simp only [win_percent_spec, hf, if_neg hg]

theorem nansum_cons_none (l : List (Option ℚ)) :
    nansum (none :: l) = nansum l := by
  simp only [nansum, List.filterMap_cons, id_eq]

theorem nansum_cons_some (v : ℚ) (l : List (Option ℚ)) :
    nansum (some v :: l) = v + nansum l := by
  simp only [nansum, List.filterMap_cons, id_eq, List.sum_cons]

theorem nansum_append (l₁ l₂ : List (Option ℚ)) :
    nansum (l₁ ++ l₂) = nansum l₁ + nansum l₂ := by
  rw [nansum, nansum, nansum, List.filterMap_append, List.sum_append]

theorem nansum_flatMap {α : Type} (l : List α) (f : α → List (Option ℚ)) :
    nansum (l.flatMap f) = (l.map fun a => nansum (f a)).sum := by
  induction l with
  | nil => rfl
  | cons a l ih =>
    rw [List.flatMap_cons, nansum_append, List.map_cons, List.sum_cons, ih]

/-- Skip-NaN summation of the products `win * win_percent` equals the
plain summation against the spec's 0-guarded win percentage: a NaN
factor is skipped on the left and contributes a 0 product on the right. -/
theorem nansum_wp_rows (rs : List Roster) (w : MRow → ℚ) (l : List MRow) :
    nansum (l.map fun o => (wp_nan rs o.roster_id).map fun v => w o * v)
      = (l.map fun o => w o * win_percent_spec rs o.roster_id).sum := by
  induction l with
  | nil => rfl
  | cons o l ih =>
    rw [List.map_cons, List.map_cons, List.sum_cons, ← ih]
    rcases wp_nan_spec rs o.roster_id with ⟨h1, h2⟩ | ⟨v, h1, h2⟩
    · rw [h1, h2, mul_zero, Option.map_none', nansum_cons_none, zero_add]
    · rw [h1, h2, Option.map_some', nansum_cons_some]

/-- One matchup row's contribution: the skip-NaN sum of `rank_score`
over the row's merged opponent entries (self-pairs removed) equals the
spec's sum of win indicator times 0-guarded opponent win percentage. -/
theorem per_row_sum (rs : List Roster) (m : MRow) (R : ℕ)
    (hmR : m.roster_id = R) (l : List MRow) :
    nansum
      (List.map PairRow.rank_score
        (List.filter (fun p => !(p.roster_id == p.opponent_id))
          (List.map
            (fun o : OppRow =>
              (⟨m.roster_id, m.points, m.matchup_id, m.week,
                o.opponent_id, o.opponent_points, o.win_percent⟩ : PairRow))
            (List.filter
              (fun o : OppRow => o.matchup_id == m.matchup_id && o.week == m.week)
              (List.map
                (fun o : MRow =>
                  (⟨o.roster_id, o.matchup_id, o.points, o.week,
                    wp_nan rs o.roster_id⟩ : OppRow))
                l)))))
    = (List.map
        (fun o : MRow =>
          (if o.points < m.points then (1 : ℚ) else 0)
            * win_percent_spec rs o.roster_id)
        (List.filter
          (fun o : MRow =>
            o.matchup_id == m.matchup_id && o.week == m.week
              && !(o.roster_id == R)) l)).sum := by
  induction l with
  | nil => rfl
  | cons o l ih =>
    simp only [List.map_cons, List.filter_cons]
    by_cases hq : (o.matchup_id == m.matchup_id && o.week == m.week) = true
    · rw [if_pos hq]
      simp only [List.map_cons, List.filter_cons]
      by_cases hself : (m.roster_id == o.roster_id) = true
      · have hc : (o.roster_id == R) = true :=
          beq_iff_eq.mpr (((beq_iff_eq.mp hself).symm).trans hmR)
        rw [if_neg (by simp [hself]), if_neg (by simp [hc])]
        exact ih
      · have hself' : (m.roster_id == o.roster_id) = false :=
          Bool.eq_false_iff.mpr hself
        have hne : m.roster_id ≠ o.roster_id := beq_eq_false_iff_ne.mp hself'
        have hc : (o.roster_id == R) = false :=
          beq_eq_false_iff_ne.mpr fun h => hne (hmR.trans h.symm)
        rw [Bool.and_eq_true] at hq
        rw [if_pos (by simp [hself']), if_pos (by simp [hq.1, hq.2, hc]),
          List.map_cons, List.map_cons, List.sum_cons]
        rcases wp_nan_spec rs o.roster_id with ⟨h1, h2⟩ | ⟨v, h1, h2⟩
        · have hrs : PairRow.rank_score
              ⟨m.roster_id, m.points, m.matchup_id, m.week, o.roster_id,
                o.points, wp_nan rs o.roster_id⟩ = none := by
            simp [PairRow.rank_score, h1]
          rw [hrs, nansum_cons_none, h2, mul_zero, zero_add]
          exact ih
        · have hrs : PairRow.rank_score
              ⟨m.roster_id, m.points, m.matchup_id, m.week, o.roster_id,
                o.points, wp_nan rs o.roster_id⟩
              = some ((if o.points < m.points then (1 : ℚ) else 0) * v) := by
            simp [PairRow.rank_score, PairRow.win, h1]
          rw [hrs, nansum_cons_some, h2]
          rw [ih]
    · rw [if_neg hq,
        if_neg (fun hcon => by
          rw [Bool.and_eq_true, Bool.and_eq_true] at hcon
          exact hq (by rw [Bool.and_eq_true]; exact hcon.1))]
      exact ih

/-- Claim C1: every `(roster, score)` row the Power Ranking Engine emits
carries exactly the claimed sum — over the roster's matchup rows paired
with the opponent entries sharing `matchup_id` and week (its own entries
excluded), of the strict-greater win indicator times that opponent's
season win percentage (0-guarded, per the spec).  Requires the rosters'
ids to be pairwise distinct (the table's key), since duplicate roster
rows would duplicate merged opponent rows. -/
theorem power_rankings_match_spec (ms : List MRow) (rs : List Roster)
    (hnd : (rs.map Roster.roster_id).Nodup) :
    ∀ p ∈ calculate_power_rankings ms rs, p.2 = power_score_spec ms rs p.1 := by
  intro p hp
  rw [calculate_power_rankings, List.mem_flatMap] at hp
  obtain ⟨R, hR, hpmem⟩ := hp
  by_cases hemp : (curr_matchups_joined ms rs R).isEmpty
  · rw [if_pos hemp] at hpmem
    cases hpmem
  · rw [if_neg hemp] at hpmem
    rw [List.mem_singleton] at hpmem
    subst hpmem
    show nansum ((curr_matchups_joined ms rs R).map PairRow.rank_score)
      = power_score_spec ms rs R
    rw [curr_matchups_joined, opponents_table_eq ms rs hnd, power_score_spec]
    rw [List.filter_flatMap, List.map_flatMap, nansum_flatMap, sum_flatMap_rat]
    apply congrArg List.sum
    apply List.map_congr_left
    intro m hm
    have hmpred := List.of_mem_filter hm
    have hmR : m.roster_id = R := beq_iff_eq.mp hmpred
    exact per_row_sum rs m R hmR ms

/-- Witness for `power_rankings_match_spec` at a two-roster, one-week
league: roster 1 beat roster 2, and its engine row `(1, 0)` carries the
spec sum (roster 2's win percentage is 0). -/
theorem power_rankings_match_spec_witness :
    (0 : ℚ) = power_score_spec [⟨1, 10, 1, 1⟩, ⟨2, 8, 1, 1⟩]
      [⟨1, 5, 1, 0, 0, 10, 8⟩, ⟨2, 6, 0, 0, 1, 8, 10⟩] 1 := by
  have hmem : ((1 : ℕ), (0 : ℚ)) ∈ calculate_power_rankings
      [⟨1, 10, 1, 1⟩, ⟨2, 8, 1, 1⟩]
      [⟨1, 5, 1, 0, 0, 10, 8⟩, ⟨2, 6, 0, 0, 1, 8, 10⟩] := by
    norm_num [calculate_power_rankings, uniqueList, curr_matchups_joined,
      opponents_table, left_join_rows, win_percent, Roster.games, nansum,
      PairRow.rank_score, PairRow.win, List.flatMap_cons, List.filter_cons,
      List.isEmpty, List.filterMap_cons, List.filterMap_nil, List.sum_cons,
      List.sum_nil, Option.map_some']
  exact power_rankings_match_spec _ _ (by decide) ((1 : ℕ), (0 : ℚ)) hmem

end Dashboard
